import Mathlib

/-!
Verification of the candidate/job matching engine
(`src/application-tracking-system/ats-backend/src/nlp/matcher.py`, class
`MatchingEngine`).  The engine is a thin wrapper around scikit-learn's
`TfidfVectorizer(max_features=500, stop_words="english")` and
`cosine_similarity`; the embedding below therefore models the relevant
scikit-learn pipeline (word tokenization, English stop-word removal,
vocabulary construction with `max_features` selection, smoothed idf,
l2 row normalization, cosine similarity) together with the three methods
`calculate_match_score`, `extract_missing_skills` and `rank_candidates`.
Real-valued (floating point in the source) quantities are modelled over `ℝ`.
-/

namespace ATS

/-- The scikit-learn built-in English stop word list
(`sklearn.feature_extraction.text.ENGLISH_STOP_WORDS`), used by
`TfidfVectorizer(stop_words="english")`. -/
def englishStopWords : List String :=
  ["a", "about", "above", "across", "after", "afterwards", "again", "against",
   "all", "almost", "alone", "along", "already", "also", "although", "always",
   "am", "among", "amongst", "amoungst", "amount", "an", "and", "another",
   "any", "anyhow", "anyone", "anything", "anyway", "anywhere", "are",
   "around", "as", "at", "back", "be", "became", "because", "become",
   "becomes", "becoming", "been", "before", "beforehand", "behind", "being",
   "below", "beside", "besides", "between", "beyond", "bill", "both",
   "bottom", "but", "by", "call", "can", "cannot", "cant", "co", "con",
   "could", "couldnt", "cry", "de", "describe", "detail", "do", "done",
   "down", "due", "during", "each", "eg", "eight", "either", "eleven",
   "else", "elsewhere", "empty", "enough", "etc", "even", "ever", "every",
   "everyone", "everything", "everywhere", "except", "few", "fifteen",
   "fifty", "fill", "find", "fire", "first", "five", "for", "former",
   "formerly", "forty", "found", "four", "from", "front", "full", "further",
   "get", "give", "go", "had", "has", "hasnt", "have", "he", "hence", "her",
   "here", "hereafter", "hereby", "herein", "hereupon", "hers", "herself",
   "him", "himself", "his", "how", "however", "hundred", "i", "ie", "if",
   "in", "inc", "indeed", "interest", "into", "is", "it", "its", "itself",
   "keep", "last", "latter", "latterly", "least", "less", "ltd", "made",
   "many", "may", "me", "meanwhile", "might", "mill", "mine", "more",
   "moreover", "most", "mostly", "move", "much", "must", "my", "myself",
   "name", "namely", "neither", "never", "nevertheless", "next", "nine",
   "no", "nobody", "none", "noone", "nor", "not", "nothing", "now",
   "nowhere", "of", "off", "often", "on", "once", "one", "only", "onto",
   "or", "other", "others", "otherwise", "our", "ours", "ourselves", "out",
   "over", "own", "part", "per", "perhaps", "please", "put", "rather", "re",
   "same", "see", "seem", "seemed", "seeming", "seems", "serious", "several",
   "she", "should", "show", "side", "since", "sincere", "six", "sixty",
   "so", "some", "somehow", "someone", "something", "sometime", "sometimes",
   "somewhere", "still", "such", "system", "take", "ten", "than", "that",
   "the", "their", "them", "themselves", "then", "thence", "there",
   "thereafter", "thereby", "therefore", "therein", "thereupon", "these",
   "they", "thick", "thin", "third", "this", "those", "though", "three",
   "through", "throughout", "thru", "thus", "to", "together", "too", "top",
   "toward", "towards", "twelve", "twenty", "two", "un", "under", "until",
   "up", "upon", "us", "very", "via", "was", "we", "well", "were", "what",
   "whatever", "when", "whence", "whenever", "where", "whereafter",
   "whereas", "whereby", "wherein", "whereupon", "wherever", "whether",
   "which", "while", "whither", "who", "whoever", "whole", "whom", "whose",
   "why", "will", "with", "within", "without", "would", "yet", "you",
   "your", "yours", "yourself", "yourselves"]

/-- Word characters of the default `token_pattern` regular expression
`(?u)\b\w\w+\b` of `CountVectorizer` (ASCII model of `\w`). -/
def isWordChar (c : Char) : Bool :=
  c.isAlphanum || c == '_'

/-- Word tokenization of `CountVectorizer.build_analyzer()`: lowercase the
document, then take the maximal runs of word characters of length at least
two (the default token pattern `(?u)\b\w\w+\b`). -/
def rawTokens (s : String) : List String :=
  (((s.data.map Char.toLower).splitOnP (fun c => !isWordChar c)).filter
      (fun w => 2 ≤ w.length)).map String.mk

/-- The analyzed token stream of one document: word tokens with English
stop words removed (`stop_words="english"`). -/
def tokensOf (s : String) : List String :=
  (rawTokens s).filter (fun t => !englishStopWords.contains t)

/-- The token stream of the two-document corpus
`documents = [resume_text, job_description]` built by each engine call. -/
def corpusTokens (resume job : String) : List String :=
  tokensOf resume ++ tokensOf job

/-- Number of occurrences of term `t` in the whole two-document corpus
(the column sums `X.sum(axis=0)` used by `CountVectorizer._limit_features`). -/
def corpusCount (resume job t : String) : ℕ :=
  (corpusTokens resume job).count t

/-- Lexicographic comparison of character lists, the order underlying
Python's `sorted` on the vocabulary terms. -/
def lexLe : List Char → List Char → Bool
  | [], _ => true
  | _ :: _, [] => false
  | c :: cs, d :: ds => if c = d then lexLe cs ds else decide (c < d)

/-- Lexicographic comparison of strings. -/
def strLe (s t : String) : Bool :=
  lexLe s.data t.data

/-- Insertion into a sorted list (auxiliary to `sortBy`). -/
def insertBy (le : String → String → Bool) (x : String) : List String → List String
  | [] => [x]
  | y :: ys => if le x y then x :: y :: ys else y :: insertBy le x ys

/-- Stable insertion sort of a list of strings by the comparison `le`. -/
def sortBy (le : String → String → Bool) : List String → List String
  | [] => []
  | x :: xs => insertBy le x (sortBy le xs)

/-- The full vocabulary before `max_features` trimming: the distinct
analyzed terms of the corpus in sorted order (scikit-learn stores
`vocabulary_` with indices assigned in sorted term order). -/
def fullVocab (resume job : String) : List String :=
  sortBy strLe ((corpusTokens resume job).dedup)

/-- The `max_features=500` bound passed to `TfidfVectorizer` in
`MatchingEngine.vectorizer`. -/
def maxFeatures : ℕ := 500

/-- The `max_features` selection order: terms by non-increasing corpus count,
ties kept in (alphabetical) vocabulary order by stability. -/
def byCountDesc (resume job : String) : List String :=
  sortBy (fun s t => decide (corpusCount resume job t ≤ corpusCount resume job s))
    (fullVocab resume job)

/-- The vocabulary of one engine call: the full sorted vocabulary when it has
at most `max_features` terms, otherwise the (still sorted) subset of the
`max_features` terms of the largest corpus counts
(`CountVectorizer._limit_features`; ties are broken stably, i.e.
alphabetically — scikit-learn leaves tie order unspecified). -/
def vocabOf (resume job : String) : List String :=
  if (fullVocab resume job).length ≤ maxFeatures then fullVocab resume job
  else (fullVocab resume job).filter
    (fun t => ((byCountDesc resume job).take maxFeatures).contains t)

/-- Term frequency: occurrences of term `t` in document `d`
(the entries of the `CountVectorizer` count matrix). -/
def tf (d t : String) : ℕ :=
  (tokensOf d).count t

/-- Document frequency of term `t` in the two-document corpus: the number of
the two documents containing `t`. -/
def df (resume job t : String) : ℕ :=
  (if tf resume t ≠ 0 then 1 else 0) + (if tf job t ≠ 0 then 1 else 0)

/-- Smoothed inverse document frequency of `TfidfTransformer`
(defaults `smooth_idf=True, use_idf=True`): `ln((1 + n) / (1 + df)) + 1`
with `n = 2` documents. -/
noncomputable def idf (resume job t : String) : ℝ :=
  Real.log ((2 + 1) / ((df resume job t : ℝ) + 1)) + 1

/-- Unnormalized tf-idf weight of term `t` in document `d`: raw count times
idf (`TfidfTransformer` with default `sublinear_tf=False`). -/
noncomputable def rawWeight (resume job d t : String) : ℝ :=
  (tf d t : ℝ) * idf resume job t

/-- The index set of the tf-idf vector space of one call: its vocabulary,
as a finite set of terms. -/
def vocabFinset (resume job : String) : Finset String :=
  (vocabOf resume job).toFinset

/-- Euclidean norm of a weight vector over the index set `s`. -/
noncomputable def l2norm (s : Finset String) (v : String → ℝ) : ℝ :=
  Real.sqrt (∑ t ∈ s, v t ^ 2)

/-- Row normalization of `sklearn.preprocessing.normalize(…, norm="l2")`:
divide by the Euclidean norm, leaving all-zero rows unchanged
(scikit-learn replaces zero norms by 1 before dividing). -/
noncomputable def l2normalize (s : Finset String) (v : String → ℝ) : String → ℝ :=
  fun t => if l2norm s v = 0 then v t else v t / l2norm s v

/-- The tf-idf row of document `d` produced by
`TfidfVectorizer.fit_transform([resume, job])` (default `norm="l2"`). -/
noncomputable def tfidfRow (resume job d : String) : String → ℝ :=
  l2normalize (vocabFinset resume job) (rawWeight resume job d)

/-- The value `cosine_similarity(tfidf_matrix[0:1], tfidf_matrix[1:2])[0][0]`:
`cosine_similarity` l2-normalizes both rows once more and takes their dot
product. -/
noncomputable def cosineSimilarity (resume job : String) : ℝ :=
  ∑ t ∈ vocabFinset resume job,
    l2normalize (vocabFinset resume job) (tfidfRow resume job resume) t *
      l2normalize (vocabFinset resume job) (tfidfRow resume job job) t

/-- The (real-valued) score computed on the non-exceptional path of
`MatchingEngine.calculate_match_score`:
`float(similarity[0][0]) * max_score`. -/
noncomputable def scoreOf (resume job : String) (maxScore : ℝ) : ℝ :=
  cosineSimilarity resume job * maxScore

/-- The scikit-learn error message raised by `CountVectorizer` when the
two-document corpus yields no vocabulary term. -/
def emptyVocabularyError : String :=
  "empty vocabulary; perhaps the documents only contain stop words"

/-- Shallow embedding of `MatchingEngine.calculate_match_score`:
vectorizes the two texts (which raises a `ValueError` when the corpus has an
empty vocabulary — modelled as `Except.error`) and returns cosine similarity
scaled by `max_score`. -/
noncomputable def calculate_match_score (resume job : String) (maxScore : ℝ) :
    Except String ℝ :=
  if vocabOf resume job = [] then Except.error emptyVocabularyError
  else Except.ok (scoreOf resume job maxScore)

/-- The terms of `job_words` in `MatchingEngine.extract_missing_skills`:
vocabulary terms whose entry of the job-description tf-idf row is stored
nonzero, i.e. terms occurring in the job description (kept in vocabulary
order; Python set iteration order is unspecified). -/
def jobWords (resume job : String) : List String :=
  (vocabOf resume job).filter (fun t => tf job t ≠ 0)

/-- The terms of `resume_words` in `MatchingEngine.extract_missing_skills`. -/
def resumeWords (resume job : String) : List String :=
  (vocabOf resume job).filter (fun t => tf resume t ≠ 0)

/-- The list `missing_skills = list(job_words - resume_words)`. -/
def missingSkills (resume job : String) : List String :=
  (jobWords resume job).filter (fun t => !(resumeWords resume job).contains t)

/-- The list `matched_skills = list(job_words & resume_words)`. -/
def matchedSkills (resume job : String) : List String :=
  (jobWords resume job).filter (fun t => (resumeWords resume job).contains t)

/-- Shallow embedding of `MatchingEngine.extract_missing_skills`.  The
`threshold` parameter is received exactly as in the source, where it is never
read after binding.  Vectorization raises on an empty vocabulary as in
`calculate_match_score`. -/
def extract_missing_skills (resume job : String) (threshold : ℝ) :
    Except String (List String × List String) :=
  if vocabOf resume job = [] then Except.error emptyVocabularyError
  else Except.ok (missingSkills resume job, matchedSkills resume job)

/-- Values stored in a candidate dictionary: the engine itself only ever
stores strings, floats and lists of strings. -/
inductive PyVal where
  | str : String → PyVal
  | real : ℝ → PyVal
  | strList : List String → PyVal

/-- A Python dictionary with string keys, modelled as an association list in
insertion order. -/
abbrev Dict := List (String × PyVal)

/-- Dictionary lookup (first entry whose key matches). -/
def dictLookup : Dict → String → Option PyVal
  | [], _ => none
  | (k', v) :: rest, k => if k = k' then some v else dictLookup rest k

/-- Setting a key in a dictionary, as Python's `{**d, k: v}` does: an
existing key keeps its position and gets the new value, a new key is
appended at the end. -/
def dictSet (d : Dict) (k : String) (v : PyVal) : Dict :=
  if k ∈ d.map Prod.fst then
    d.map (fun p => if p.1 = k then (k, v) else p)
  else d ++ [(k, v)]

/-- The expression `candidate.get("resume_text", "")` of
`MatchingEngine.rank_candidates` (an absent key defaults to the empty
string; the source always stores resume texts as strings). -/
def resumeTextOf (c : Dict) : String :=
  match dictLookup c "resume_text" with
  | some (PyVal.str s) => s
  | _ => ""

/-- The body of the loop of `MatchingEngine.rank_candidates`: the
`ranked_candidate` dictionary `{**candidate, "match_score": score,
"missing_skills": missing_skills, "matched_skills": matched_skills}`. -/
noncomputable def rankedCandidate (job : String) (maxScore : ℝ) (c : Dict) : Dict :=
  dictSet (dictSet (dictSet c
    "match_score" (PyVal.real (scoreOf (resumeTextOf c) job maxScore)))
    "missing_skills" (PyVal.strList (missingSkills (resumeTextOf c) job)))
    "matched_skills" (PyVal.strList (matchedSkills (resumeTextOf c) job))

/-- The list `ranked_candidates` of `MatchingEngine.rank_candidates` right
before the final sort. -/
noncomputable def preRanked (candidates : List Dict) (job : String) (maxScore : ℝ) :
    List Dict :=
  candidates.map (rankedCandidate job maxScore)

/-- The sort key `lambda x: x["match_score"]` of the final
`ranked_candidates.sort(...)` (every ranked candidate stores a float under
`"match_score"`). -/
noncomputable def scoreKey (c : Dict) : ℝ :=
  match dictLookup c "match_score" with
  | some (PyVal.real r) => r
  | _ => 0

open Classical in
/-- The comparison used by the final sort: `x` may stay before `y` exactly
when the key of `y` is at most the key of `x` (descending order, ties kept
stable). -/
noncomputable def scoreDescBool (x y : Dict) : Bool :=
  decide (scoreKey y ≤ scoreKey x)

/-- The final `ranked_candidates.sort(key=lambda x: x["match_score"],
reverse=True)`: Python's stable sort into non-increasing key order. -/
noncomputable def sortByScoreDesc (l : List Dict) : List Dict :=
  l.mergeSort scoreDescBool

/-- Shallow embedding of `MatchingEngine.rank_candidates`: each candidate is
scored against the job description (which raises — `Except.error` — as soon
as one candidate's two-document corpus has an empty vocabulary), augmented
with the three result fields, and the list is stable-sorted by descending
match score. -/
noncomputable def rank_candidates (candidates : List Dict) (job : String)
    (maxScore : ℝ) : Except String (List Dict) :=
  if candidates.all (fun c => !(vocabOf (resumeTextOf c) job).isEmpty) then
    Except.ok (sortByScoreDesc (preRanked candidates job maxScore))
  else Except.error emptyVocabularyError

/-- The set-level contract of `extract_missing_skills` on a successful call:
membership in the two returned collections is decided by non-zero tf-idf
weight of a vocabulary term in the job-description row (for both) and in the
resume row (matched only), the collections are disjoint, and together they
cover exactly the job description's non-zero-weight vocabulary. -/
def extractSpec (resume job : String) (missing matched : List String) : Prop :=
  (∀ t, t ∈ missing ↔ (t ∈ vocabOf resume job ∧ tfidfRow resume job job t ≠ 0) ∧
      ¬(t ∈ vocabOf resume job ∧ tfidfRow resume job resume t ≠ 0)) ∧
  (∀ t, t ∈ matched ↔ (t ∈ vocabOf resume job ∧ tfidfRow resume job job t ≠ 0) ∧
      (t ∈ vocabOf resume job ∧ tfidfRow resume job resume t ≠ 0)) ∧
  (∀ t, ¬(t ∈ missing ∧ t ∈ matched)) ∧
  (∀ t, (t ∈ missing ∨ t ∈ matched) ↔
      (t ∈ vocabOf resume job ∧ tfidfRow resume job job t ≠ 0))

/-- A concrete candidate batch used to exercise `rank_candidates`. -/
def sampleCandidates : List Dict :=
  [[("resume_text", PyVal.str "python java spring")],
   [("resume_text", PyVal.str "haskell")]]

/-! ### Generic facts about l2 normalization and the cosine of two rows -/

theorem l2norm_nonneg (s : Finset String) (v : String → ℝ) : 0 ≤ l2norm s v :=
  Real.sqrt_nonneg _

theorem sq_l2norm (s : Finset String) (v : String → ℝ) :
    l2norm s v ^ 2 = ∑ t ∈ s, v t ^ 2 :=
  Real.sq_sqrt (Finset.sum_nonneg fun _ _ => sq_nonneg _)

theorem l2normalize_nonneg (s : Finset String) (v : String → ℝ)
    (hv : ∀ t, 0 ≤ v t) (t : String) : 0 ≤ l2normalize s v t := by
  unfold l2normalize
  split
  · exact hv t
  · exact div_nonneg (hv t) (l2norm_nonneg s v)

theorem l2normalize_of_norm_zero (s : Finset String) (v : String → ℝ)
    (h : l2norm s v = 0) : l2normalize s v = v := by
  funext t
  simp [l2normalize, h]

theorem l2normalize_of_norm_ne_zero (s : Finset String) (v : String → ℝ)
    (h : l2norm s v ≠ 0) (t : String) : l2normalize s v t = v t / l2norm s v := by
  simp [l2normalize, h]

theorem l2norm_l2normalize (s : Finset String) (v : String → ℝ) :
    l2norm s (l2normalize s v) = if l2norm s v = 0 then 0 else 1 := by
  by_cases h : l2norm s v = 0
  · rw [if_pos h, l2normalize_of_norm_zero s v h, h]
  · rw [if_neg h]
    have hN2 : l2norm s v ^ 2 = ∑ t ∈ s, v t ^ 2 := sq_l2norm s v
    have hsum : (∑ t ∈ s, l2normalize s v t ^ 2) = 1 := by
      have : ∀ t ∈ s, l2normalize s v t ^ 2 = v t ^ 2 / l2norm s v ^ 2 := by
        intro t _
        rw [l2normalize_of_norm_ne_zero s v h, div_pow]
      rw [Finset.sum_congr rfl this, ← Finset.sum_div, ← hN2,
        div_self (pow_ne_zero 2 h)]
    unfold l2norm
    rw [hsum, Real.sqrt_one]

theorem l2norm_l2normalize_le_one (s : Finset String) (v : String → ℝ) :
    l2norm s (l2normalize s v) ≤ 1 := by
  rw [l2norm_l2normalize]
  split <;> norm_num

theorem dot_le_l2norms (s : Finset String) (u w : String → ℝ) :
    ∑ t ∈ s, u t * w t ≤ l2norm s u * l2norm s w :=
  Real.sum_mul_le_sqrt_mul_sqrt s u w

/-! ### Facts about the tf-idf rows of the engine -/

theorem one_le_idf (a b t : String) : 1 ≤ idf a b t := by
  have hdf : df a b t ≤ 2 := by
    unfold df
    split <;> split <;> norm_num
  have h1 : (0 : ℝ) < (df a b t : ℝ) + 1 := by positivity
  have h2 : (1 : ℝ) ≤ (2 + 1) / ((df a b t : ℝ) + 1) := by
    rw [le_div_iff₀ h1]
    have : (df a b t : ℝ) ≤ 2 := by exact_mod_cast hdf
    linarith
  have h3 := Real.log_nonneg h2
  unfold idf
  linarith

theorem rawWeight_nonneg (a b d t : String) : 0 ≤ rawWeight a b d t :=
  mul_nonneg (Nat.cast_nonneg _) (le_trans zero_le_one (one_le_idf a b t))

theorem tfidfRow_nonneg (a b d : String) (t : String) : 0 ≤ tfidfRow a b d t :=
  l2normalize_nonneg _ _ (rawWeight_nonneg a b d) t

theorem cosineSimilarity_nonneg (a b : String) : 0 ≤ cosineSimilarity a b :=
  Finset.sum_nonneg fun t _ =>
    mul_nonneg (l2normalize_nonneg _ _ (tfidfRow_nonneg a b a) t)
      (l2normalize_nonneg _ _ (tfidfRow_nonneg a b b) t)

theorem cosineSimilarity_le_one (a b : String) : cosineSimilarity a b ≤ 1 := by
  refine le_trans (dot_le_l2norms _ _ _) ?_
  exact mul_le_one₀ (l2norm_l2normalize_le_one _ _)
    (l2norm_nonneg _ _) (l2norm_l2normalize_le_one _ _)

/-- C5: for every pair of input strings on which `calculate_match_score`
returns (rather than raises) and every positive `max_score`, the returned
value lies between `0` and `max_score`. -/
theorem calculate_match_score_bounds (a b : String) (m s : ℝ) (hm : 0 < m)
    (h : calculate_match_score a b m = Except.ok s) : 0 ≤ s ∧ s ≤ m := by
  unfold calculate_match_score at h
  split at h
  · cases h
  · cases h
    constructor
    · exact mul_nonneg (cosineSimilarity_nonneg a b) hm.le
    · exact mul_le_of_le_one_left hm.le (cosineSimilarity_le_one a b)

/-- Witness for C5 at concrete input: the score of the resume `"python"`
against the job description `"java"` with `max_score = 100` is in
`[0, 100]`. -/
theorem calculate_match_score_bounds_witness :
    (0 : ℝ) < 100 ∧ (0 ≤ scoreOf "python" "java" 100 ∧ scoreOf "python" "java" 100 ≤ 100) := by
  refine ⟨by norm_num, calculate_match_score_bounds "python" "java" 100 _ (by norm_num) ?_⟩
  rw [calculate_match_score, if_neg (by decide)]

/-- C1: at the degenerate input of two empty strings,
`calculate_match_score` does not return `0.0`: the underlying vectorization
raises scikit-learn's empty-vocabulary `ValueError`, which the method
propagates. -/
theorem calculate_match_score_empty_raises :
    calculate_match_score "" "" 100 = Except.error emptyVocabularyError := by
  rw [calculate_match_score, if_pos (by decide)]

/-! ### Correctness of the insertion sort used for the vocabulary -/

theorem insertBy_perm (le : String → String → Bool) (x : String) :
    ∀ l : List String, (insertBy le x l).Perm (x :: l)
  | [] => List.Perm.refl _
  | y :: ys => by
    unfold insertBy
    split
    · exact List.Perm.refl _
    · exact ((insertBy_perm le x ys).cons y).trans (List.Perm.swap x y ys)

theorem sortBy_perm (le : String → String → Bool) :
    ∀ l : List String, (sortBy le l).Perm l
  | [] => List.Perm.refl _
  | x :: xs => (insertBy_perm le x (sortBy le xs)).trans ((sortBy_perm le xs).cons x)

theorem insertBy_sorted (le : String → String → Bool)
    (htrans : ∀ s t u, le s t = true → le t u = true → le s u = true)
    (htotal : ∀ s t, le s t = true ∨ le t s = true) (x : String) :
    ∀ l : List String, l.Pairwise (fun s t => le s t = true) →
      (insertBy le x l).Pairwise (fun s t => le s t = true)
  | [], _ => by simp [insertBy]
  | y :: ys, hl => by
    unfold insertBy
    by_cases h : le x y = true
    · rw [if_pos h]
      refine List.Pairwise.cons ?_ hl
      intro z hz
      rcases List.mem_cons.mp hz with rfl | hz
      · exact h
      · exact htrans x y z h (List.rel_of_pairwise_cons hl hz)
    · rw [if_neg h]
      have hyx : le y x = true := (htotal x y).resolve_left h
      refine List.Pairwise.cons ?_ (insertBy_sorted le htrans htotal x ys hl.tail)
      intro z hz
      rcases List.mem_cons.mp ((insertBy_perm le x ys).mem_iff.mp hz) with rfl | hz
      · exact hyx
      · exact List.rel_of_pairwise_cons hl hz

theorem sortBy_sorted (le : String → String → Bool)
    (htrans : ∀ s t u, le s t = true → le t u = true → le s u = true)
    (htotal : ∀ s t, le s t = true ∨ le t s = true) :
    ∀ l : List String, (sortBy le l).Pairwise (fun s t => le s t = true)
  | [] => List.Pairwise.nil
  | x :: xs => insertBy_sorted le htrans htotal x _ (sortBy_sorted le htrans htotal xs)

theorem lexLe_total : ∀ x y : List Char, lexLe x y = true ∨ lexLe y x = true
  | [], _ => Or.inl rfl
  | _ :: _, [] => Or.inr rfl
  | c :: cs, d :: ds => by
    by_cases h : c = d
    · subst h
      simpa [lexLe] using lexLe_total cs ds
    · have h' : d ≠ c := fun e => h e.symm
      rcases lt_or_gt_of_ne h with hlt | hgt
      · exact Or.inl (by simp [lexLe, h, hlt])
      · exact Or.inr (by simp [lexLe, h', hgt])

theorem lexLe_trans : ∀ x y z : List Char,
    lexLe x y = true → lexLe y z = true → lexLe x z = true
  | [], _, _, _, _ => rfl
  | _ :: _, [], _, hxy, _ => by simp [lexLe] at hxy
  | _ :: _, _ :: _, [], _, hyz => by simp [lexLe] at hyz
  | c :: cs, d :: ds, e :: es, hxy, hyz => by
    by_cases hcd : c = d
    · subst hcd
      by_cases hde : c = e
      · subst hde
        simp only [lexLe, if_pos rfl] at hxy hyz ⊢
        exact lexLe_trans cs ds es hxy hyz
      · simp only [lexLe, if_pos rfl] at hxy
        simpa [lexLe, hde] using hyz
    · by_cases hde : d = e
      · subst hde
        simp only [lexLe, if_neg hcd] at hxy ⊢
        exact hxy
      · have h1 : c < d := by simpa [lexLe, hcd] using hxy
        have h2 : d < e := by simpa [lexLe, hde] using hyz
        have h3 : c < e := lt_trans h1 h2
        simp [lexLe, ne_of_lt h3, h3]

theorem lexLe_antisymm : ∀ x y : List Char,
    lexLe x y = true → lexLe y x = true → x = y
  | [], [], _, _ => rfl
  | [], _ :: _, _, hyx => by simp [lexLe] at hyx
  | _ :: _, [], hxy, _ => by simp [lexLe] at hxy
  | c :: cs, d :: ds, hxy, hyx => by
    by_cases h : c = d
    · subst h
      simp only [lexLe, if_pos rfl] at hxy hyx
      rw [lexLe_antisymm cs ds hxy hyx]
    · have h' : d ≠ c := fun e => h e.symm
      have h1 : c < d := by simpa [lexLe, h] using hxy
      have h2 : d < c := by simpa [lexLe, h'] using hyx
      exact absurd h2 (lt_asymm h1)

theorem strLe_total (s t : String) : strLe s t = true ∨ strLe t s = true :=
  lexLe_total s.data t.data

theorem strLe_trans (s t u : String) :
    strLe s t = true → strLe t u = true → strLe s u = true :=
  lexLe_trans s.data t.data u.data

theorem strLe_antisymm (s t : String) :
    strLe s t = true → strLe t s = true → s = t := by
  intro h1 h2
  have h := lexLe_antisymm s.data t.data h1 h2
  cases s
  cases t
  exact congrArg String.mk h

/-! ### Symmetry of the vectorization in the two documents -/

theorem corpusCount_symm (a b : String) : corpusCount a b = corpusCount b a := by
  funext t
  unfold corpusCount corpusTokens
  rw [List.count_append, List.count_append, Nat.add_comm]

theorem dedup_corpus_perm_symm (a b : String) :
    ((corpusTokens a b).dedup).Perm ((corpusTokens b a).dedup) := by
  refine (List.perm_ext_iff_of_nodup (List.nodup_dedup _) (List.nodup_dedup _)).mpr ?_
  intro t
  simp [corpusTokens, List.mem_append, or_comm]

theorem fullVocab_symm (a b : String) : fullVocab a b = fullVocab b a := by
  have hperm : (fullVocab a b).Perm (fullVocab b a) :=
    ((sortBy_perm _ _).trans (dedup_corpus_perm_symm a b)).trans (sortBy_perm _ _).symm
  haveI : IsAntisymm String (fun s t => strLe s t = true) := ⟨strLe_antisymm⟩
  exact List.eq_of_perm_of_sorted hperm
    (sortBy_sorted _ strLe_trans strLe_total _)
    (sortBy_sorted _ strLe_trans strLe_total _)

theorem byCountDesc_symm (a b : String) : byCountDesc a b = byCountDesc b a := by
  unfold byCountDesc
  rw [fullVocab_symm a b, corpusCount_symm a b]

theorem vocabOf_symm (a b : String) : vocabOf a b = vocabOf b a := by
  unfold vocabOf
  rw [fullVocab_symm a b, byCountDesc_symm a b]

theorem df_symm (a b t : String) : df a b t = df b a t :=
  Nat.add_comm _ _

theorem idf_symm (a b t : String) : idf a b t = idf b a t := by
  unfold idf
  rw [df_symm]

theorem rawWeight_symm (a b d : String) : rawWeight a b d = rawWeight b a d := by
  funext t
  unfold rawWeight
  rw [idf_symm]

theorem vocabFinset_symm (a b : String) : vocabFinset a b = vocabFinset b a := by
  unfold vocabFinset
  rw [vocabOf_symm]

theorem tfidfRow_symm (a b d : String) : tfidfRow a b d = tfidfRow b a d := by
  unfold tfidfRow
  rw [vocabFinset_symm, rawWeight_symm]

theorem cosineSimilarity_symm (a b : String) :
    cosineSimilarity a b = cosineSimilarity b a := by
  unfold cosineSimilarity
  rw [vocabFinset_symm a b, tfidfRow_symm a b a, tfidfRow_symm a b b]
  exact Finset.sum_congr rfl fun t _ => mul_comm _ _

theorem scoreOf_symm (a b : String) (m : ℝ) : scoreOf a b m = scoreOf b a m := by
  unfold scoreOf
  rw [cosineSimilarity_symm]

/-- C4: `calculate_match_score` is symmetric in its two text arguments, both
on the regular path (cosine similarity is symmetric and the fitted
vocabulary does not depend on document order) and on the exceptional
empty-vocabulary path. -/
theorem calculate_match_score_symm (a b : String) (m : ℝ) :
    calculate_match_score a b m = calculate_match_score b a m := by
  unfold calculate_match_score
  rw [vocabOf_symm, scoreOf_symm]

/-! ### Membership facts about the vocabulary -/

theorem mem_fullVocab (a b t : String) :
    t ∈ fullVocab a b ↔ t ∈ (corpusTokens a b).dedup :=
  (sortBy_perm _ _).mem_iff

theorem vocab_subset_corpus (a b : String) {t : String} (h : t ∈ vocabOf a b) :
    t ∈ corpusTokens a b := by
  have h' : t ∈ fullVocab a b := by
    unfold vocabOf at h
    by_cases hlen : (fullVocab a b).length ≤ maxFeatures
    · simpa [hlen] using h
    · rw [if_neg hlen] at h
      exact (List.mem_filter.mp h).1
  exact List.mem_dedup.mp ((mem_fullVocab a b t).mp h')

theorem vocab_exists_mem (a b : String) (h : corpusTokens a b ≠ []) :
    ∃ y, y ∈ vocabOf a b := by
  unfold vocabOf
  by_cases hlen : (fullVocab a b).length ≤ maxFeatures
  · rw [if_pos hlen]
    obtain ⟨x, hx⟩ := List.exists_mem_of_ne_nil _ h
    exact ⟨x, (mem_fullVocab a b x).mpr (List.mem_dedup.mpr hx)⟩
  · rw [if_neg hlen]
    push_neg at hlen
    have hlen2 : ((byCountDesc a b).take maxFeatures).length = maxFeatures := by
      rw [List.length_take]
      have hb : (byCountDesc a b).length = (fullVocab a b).length :=
        (sortBy_perm _ _).length_eq
      omega
    have hne : (byCountDesc a b).take maxFeatures ≠ [] := by
      intro h0
      rw [h0] at hlen2
      simp [maxFeatures] at hlen2
    obtain ⟨y, hy⟩ := List.exists_mem_of_ne_nil _ hne
    have hyfull : y ∈ fullVocab a b :=
      (sortBy_perm _ _).mem_iff.mp (List.mem_of_mem_take hy)
    exact ⟨y, List.mem_filter.mpr ⟨hyfull, by simpa using hy⟩⟩

theorem vocab_ne_nil (a b : String) (h : corpusTokens a b ≠ []) :
    vocabOf a b ≠ [] := by
  obtain ⟨y, hy⟩ := vocab_exists_mem a b h
  exact List.ne_nil_of_mem hy

/-! ### Self-similarity -/

theorem rawWeight_self_norm_pos (t : String) (h : tokensOf t ≠ []) :
    0 < l2norm (vocabFinset t t) (rawWeight t t t) := by
  have hc : corpusTokens t t ≠ [] := by
    unfold corpusTokens
    intro h0
    exact h (List.append_eq_nil.mp h0).1
  obtain ⟨y, hyv⟩ := vocab_exists_mem t t hc
  have hyt : y ∈ tokensOf t := by
    rcases List.mem_append.mp (vocab_subset_corpus t t hyv) with h' | h' <;> exact h'
  have htf : 1 ≤ (tf t y : ℝ) := by
    have h1 : 0 < tf t y := List.count_pos_iff.mpr hyt
    exact_mod_cast h1
  have hw : 1 ≤ rawWeight t t t y := by
    unfold rawWeight
    calc (1 : ℝ) = 1 * 1 := by ring
    _ ≤ (tf t y : ℝ) * idf t t y :=
        mul_le_mul htf (one_le_idf t t y) zero_le_one (le_trans zero_le_one htf)
  unfold l2norm
  rw [Real.sqrt_pos]
  apply Finset.sum_pos'
  · exact fun u _ => sq_nonneg _
  · exact ⟨y, List.mem_toFinset.mpr hyv, by nlinarith⟩

theorem cosineSimilarity_self (t : String)
    (h : l2norm (vocabFinset t t) (rawWeight t t t) ≠ 0) :
    cosineSimilarity t t = 1 := by
  unfold cosineSimilarity
  have h1 : l2norm (vocabFinset t t) (tfidfRow t t t) = 1 := by
    unfold tfidfRow
    rw [l2norm_l2normalize, if_neg h]
  have h2 : l2norm (vocabFinset t t)
      (l2normalize (vocabFinset t t) (tfidfRow t t t)) = 1 := by
    rw [l2norm_l2normalize, if_neg (by rw [h1]; norm_num)]
  have h3 : ∀ u ∈ vocabFinset t t,
      l2normalize (vocabFinset t t) (tfidfRow t t t) u *
        l2normalize (vocabFinset t t) (tfidfRow t t t) u =
      l2normalize (vocabFinset t t) (tfidfRow t t t) u ^ 2 :=
    fun u _ => (sq _).symm
  rw [Finset.sum_congr rfl h3, ← sq_l2norm, h2, one_pow]

/-- C6 (amended): for every text with at least one analyzed token — a run of
at least two word characters that is not an English stop word —
`calculate_match_score(t, t, max_score)` returns exactly `max_score`
(self-similarity is maximal; exact in real arithmetic). -/
theorem calculate_match_score_self (t : String) (m : ℝ) (h : tokensOf t ≠ []) :
    calculate_match_score t t m = Except.ok m := by
  have hc : corpusTokens t t ≠ [] := by
    unfold corpusTokens
    intro h0
    exact h (List.append_eq_nil.mp h0).1
  rw [calculate_match_score, if_neg (vocab_ne_nil t t hc)]
  unfold scoreOf
  rw [cosineSimilarity_self t (ne_of_gt (rawWeight_self_norm_pos t h)), one_mul]

/-- Witness for C6 at concrete input: the self-score of `"python"` with
`max_score = 100` is exactly `100`. -/
theorem calculate_match_score_self_witness :
    tokensOf "python" ≠ [] ∧
      calculate_match_score "python" "python" 100 = Except.ok 100 :=
  ⟨by decide, calculate_match_score_self "python" 100 (by decide)⟩

/-- Counterexample to C6 as stated: `"x y"` is a non-empty text composed of
no English stop word at all, yet its self-score is not `max_score`: both
tokens are single characters, which the token pattern `\b\w\w+\b` drops, so
the vectorizer raises the empty-vocabulary `ValueError` instead. -/
theorem calculate_match_score_self_counterexample :
    calculate_match_score "x y" "x y" 100 = Except.error emptyVocabularyError := by
  rw [calculate_match_score, if_pos (by decide)]

/-! ### The skill-extraction contract -/

theorem tfidfRow_ne_zero_iff (a b d : String) {t : String} (ht : t ∈ vocabOf a b) :
    tfidfRow a b d t ≠ 0 ↔ tf d t ≠ 0 := by
  have hidf : 0 < idf a b t := lt_of_lt_of_le one_pos (one_le_idf a b t)
  constructor
  · intro h htf
    apply h
    have hzero : rawWeight a b d t = 0 := by
      unfold rawWeight
      rw [htf]
      simp
    unfold tfidfRow l2normalize
    split <;> simp [hzero]
  · intro htf h
    have hraw : 0 < rawWeight a b d t := by
      unfold rawWeight
      have h1 : 0 < (tf d t : ℝ) := by exact_mod_cast Nat.pos_of_ne_zero htf
      exact mul_pos h1 hidf
    have hnorm : 0 < l2norm (vocabFinset a b) (rawWeight a b d) := by
      unfold l2norm
      rw [Real.sqrt_pos]
      apply Finset.sum_pos'
      · exact fun u _ => sq_nonneg _
      · exact ⟨t, List.mem_toFinset.mpr ht, by nlinarith⟩
    unfold tfidfRow at h
    rw [l2normalize_of_norm_ne_zero _ _ (ne_of_gt hnorm)] at h
    exact absurd h (div_ne_zero (ne_of_gt hraw) (ne_of_gt hnorm))

theorem mem_jobWords (a b t : String) :
    t ∈ jobWords a b ↔ t ∈ vocabOf a b ∧ tfidfRow a b b t ≠ 0 := by
  unfold jobWords
  rw [List.mem_filter]
  constructor
  · rintro ⟨hv, hb⟩
    exact ⟨hv, (tfidfRow_ne_zero_iff a b b hv).mpr (by simpa using hb)⟩
  · rintro ⟨hv, hb⟩
    exact ⟨hv, by simpa using (tfidfRow_ne_zero_iff a b b hv).mp hb⟩

theorem mem_resumeWords (a b t : String) :
    t ∈ resumeWords a b ↔ t ∈ vocabOf a b ∧ tfidfRow a b a t ≠ 0 := by
  unfold resumeWords
  rw [List.mem_filter]
  constructor
  · rintro ⟨hv, ha⟩
    exact ⟨hv, (tfidfRow_ne_zero_iff a b a hv).mpr (by simpa using ha)⟩
  · rintro ⟨hv, ha⟩
    exact ⟨hv, by simpa using (tfidfRow_ne_zero_iff a b a hv).mp ha⟩

theorem mem_missingSkills (a b t : String) :
    t ∈ missingSkills a b ↔
      (t ∈ vocabOf a b ∧ tfidfRow a b b t ≠ 0) ∧
        ¬(t ∈ vocabOf a b ∧ tfidfRow a b a t ≠ 0) := by
  unfold missingSkills
  rw [List.mem_filter, mem_jobWords]
  constructor
  · rintro ⟨hj, hnr⟩
    refine ⟨hj, fun hr => ?_⟩
    have : t ∈ resumeWords a b := (mem_resumeWords a b t).mpr hr
    simp [this] at hnr
  · rintro ⟨hj, hnr⟩
    refine ⟨hj, ?_⟩
    have : t ∉ resumeWords a b := fun hm => hnr ((mem_resumeWords a b t).mp hm)
    simpa using this

theorem mem_matchedSkills (a b t : String) :
    t ∈ matchedSkills a b ↔
      (t ∈ vocabOf a b ∧ tfidfRow a b b t ≠ 0) ∧
        (t ∈ vocabOf a b ∧ tfidfRow a b a t ≠ 0) := by
  unfold matchedSkills
  rw [List.mem_filter, mem_jobWords]
  constructor
  · rintro ⟨hj, hr⟩
    exact ⟨hj, (mem_resumeWords a b t).mp (by simpa using hr)⟩
  · rintro ⟨hj, hr⟩
    exact ⟨hj, by simpa using (mem_resumeWords a b t).mpr hr⟩

/-- C2: on a successful call, the two collections returned by
`extract_missing_skills` are exactly the job description's non-zero-weight
vocabulary terms split by absence/presence of non-zero weight in the resume
row: they are disjoint, and their union is exactly that vocabulary. -/
theorem extract_missing_skills_spec (a b : String) (th : ℝ)
    (missing matched : List String)
    (h : extract_missing_skills a b th = Except.ok (missing, matched)) :
    extractSpec a b missing matched := by
  unfold extract_missing_skills at h
  split at h
  · cases h
  · rw [Except.ok.injEq, Prod.mk.injEq] at h
    obtain ⟨hmi, hma⟩ := h
    subst hmi
    subst hma
    refine ⟨fun t => mem_missingSkills a b t, fun t => mem_matchedSkills a b t,
      fun t ⟨h1, h2⟩ => ?_, fun t => ?_⟩
    · have hm := (mem_missingSkills a b t).mp h1
      have hm' := (mem_matchedSkills a b t).mp h2
      exact hm.2 hm'.2
    · constructor
      · rintro (h1 | h1)
        · exact ((mem_missingSkills a b t).mp h1).1
        · exact ((mem_matchedSkills a b t).mp h1).1
      · intro h1
        by_cases hr : t ∈ vocabOf a b ∧ tfidfRow a b a t ≠ 0
        · exact Or.inr ((mem_matchedSkills a b t).mpr ⟨h1, hr⟩)
        · exact Or.inl ((mem_missingSkills a b t).mpr ⟨h1, hr⟩)

/-- Witness for C2 at concrete input: extracting skills of the resume
`"python developer"` against the job `"python java"` returns
`(["java"], ["python"])`, and that pair satisfies the set contract. -/
theorem extract_missing_skills_spec_witness :
    extractSpec "python developer" "python java" ["java"] ["python"] :=
  extract_missing_skills_spec "python developer" "python java" (1 / 100)
    ["java"] ["python"]
    (by rw [extract_missing_skills, if_neg (by decide)]; exact congrArg Except.ok (by decide))

/-- C10: on a successful call, neither returned list of
`extract_missing_skills` contains a duplicate (both come from Python sets of
vocabulary terms). -/
theorem extract_missing_skills_nodup (a b : String) (th : ℝ)
    (missing matched : List String)
    (h : extract_missing_skills a b th = Except.ok (missing, matched)) :
    missing.Nodup ∧ matched.Nodup := by
  have hvoc : (vocabOf a b).Nodup := by
    have hful : (fullVocab a b).Nodup :=
      ((sortBy_perm _ _).nodup_iff).mpr (List.nodup_dedup _)
    unfold vocabOf
    split
    · exact hful
    · exact hful.filter _
  unfold extract_missing_skills at h
  split at h
  · cases h
  · rw [Except.ok.injEq, Prod.mk.injEq] at h
    obtain ⟨hmi, hma⟩ := h
    subst hmi
    subst hma
    exact ⟨((hvoc.filter _).filter _), ((hvoc.filter _).filter _)⟩

/-- Witness for C10 at concrete input. -/
theorem extract_missing_skills_nodup_witness :
    (["java"] : List String).Nodup ∧ (["python"] : List String).Nodup :=
  extract_missing_skills_nodup "python developer" "python java" (1 / 100)
    ["java"] ["python"]
    (by rw [extract_missing_skills, if_neg (by decide)]; exact congrArg Except.ok (by decide))

/-- C7: the `threshold` parameter of `extract_missing_skills` is bound but
never read, so any two threshold values produce identical results. -/
theorem extract_missing_skills_threshold_irrelevant (a b : String) (t1 t2 : ℝ) :
    extract_missing_skills a b t1 = extract_missing_skills a b t2 := rfl

/-! ### The ranking comparison -/

theorem scoreDescBool_iff (x y : Dict) :
    scoreDescBool x y = true ↔ scoreKey y ≤ scoreKey x := by
  unfold scoreDescBool
  exact ⟨of_decide_eq_true, decide_eq_true⟩

theorem scoreDescBool_trans (x y z : Dict) :
    scoreDescBool x y → scoreDescBool y z → scoreDescBool x z := by
  intro h1 h2
  exact (scoreDescBool_iff x z).mpr
    (le_trans ((scoreDescBool_iff y z).mp h2) ((scoreDescBool_iff x y).mp h1))

theorem scoreDescBool_total (x y : Dict) :
    scoreDescBool x y || scoreDescBool y x := by
  rcases le_total (scoreKey y) (scoreKey x) with h | h
  · simp [(scoreDescBool_iff x y).mpr h]
  · simp [(scoreDescBool_iff y x).mpr h]

/-- C3: on a successful call, the list returned by `rank_candidates` has the
length of the input list, is non-increasing in the `match_score` key, and is
stably sorted: every subsequence of the pre-sort list that is already
non-increasing — in particular any pair of equal-score candidates in input
order — survives as a subsequence of the output. -/
theorem rank_candidates_sorted (cs : List Dict) (job : String) (m : ℝ)
    (out : List Dict) (h : rank_candidates cs job m = Except.ok out) :
    out.length = cs.length ∧
      out.Pairwise (fun x y => scoreKey y ≤ scoreKey x) ∧
      ∀ l : List Dict, l.Sublist (preRanked cs job m) →
        l.Pairwise (fun x y => scoreKey y ≤ scoreKey x) → l.Sublist out := by
  unfold rank_candidates at h
  split at h
  · rw [Except.ok.injEq] at h
    subst h
    refine ⟨?_, ?_, ?_⟩
    · unfold sortByScoreDesc preRanked
      rw [List.length_mergeSort, List.length_map]
    · unfold sortByScoreDesc
      exact (List.sorted_mergeSort scoreDescBool_trans scoreDescBool_total
        (preRanked cs job m)).imp fun hxy => (scoreDescBool_iff _ _).mp hxy
    · intro l hsub hpair
      unfold sortByScoreDesc
      exact List.sublist_mergeSort scoreDescBool_trans scoreDescBool_total
        (hpair.imp fun hxy => (scoreDescBool_iff _ _).mpr hxy) hsub
  · cases h

/-- Witness for C3 at concrete input: ranking the two sample candidates
against the job `"python java"` succeeds and the output has the claimed
shape. -/
theorem rank_candidates_sorted_witness :
    (sortByScoreDesc (preRanked sampleCandidates "python java" 100)).length =
        sampleCandidates.length ∧
      (sortByScoreDesc (preRanked sampleCandidates "python java" 100)).Pairwise
        (fun x y => scoreKey y ≤ scoreKey x) ∧
      ∀ l : List Dict, l.Sublist (preRanked sampleCandidates "python java" 100) →
        l.Pairwise (fun x y => scoreKey y ≤ scoreKey x) →
        l.Sublist (sortByScoreDesc (preRanked sampleCandidates "python java" 100)) :=
  rank_candidates_sorted sampleCandidates "python java" 100 _
    (by rw [rank_candidates, if_pos (by decide)])

/-! ### Dictionary update facts -/

theorem dictLookup_of_not_mem_keys :
    ∀ (d : Dict) (k : String), k ∉ d.map Prod.fst → dictLookup d k = none
  | [], _, _ => rfl
  | (k₀, v₀) :: rest, k, h => by
    have h1 : k ≠ k₀ := fun e => h (by simp [e])
    have h2 : k ∉ rest.map Prod.fst := fun e => h (by simp [e])
    simp [dictLookup, h1, dictLookup_of_not_mem_keys rest k h2]

theorem dictLookup_cons (k₀ : String) (v₀ : PyVal) (rest : Dict) (k : String) :
    dictLookup ((k₀, v₀) :: rest) k = if k = k₀ then some v₀ else dictLookup rest k :=
  rfl

theorem lookup_mapSet_same :
    ∀ (d : Dict) (k : String) (v : PyVal), k ∈ d.map Prod.fst →
      dictLookup (d.map (fun p => if p.1 = k then (k, v) else p)) k = some v
  | [], k, v, h => by simp at h
  | (k₀, v₀) :: rest, k, v, h => by
    rw [List.map_cons]
    by_cases h0 : k₀ = k
    · subst h0
      rw [show (if ((k₀, v₀) : String × PyVal).1 = k₀ then (k₀, v) else (k₀, v₀)) =
          (k₀, v) from if_pos rfl]
      rw [dictLookup_cons, if_pos rfl]
    · have hmem : k ∈ rest.map Prod.fst := by
        rcases List.mem_cons.mp h with h' | h'
        · exact absurd h'.symm h0
        · exact h'
      rw [show (if ((k₀, v₀) : String × PyVal).1 = k then (k, v) else (k₀, v₀)) =
          (k₀, v₀) from if_neg h0]
      rw [dictLookup_cons, if_neg (fun e => h0 e.symm)]
      exact lookup_mapSet_same rest k v hmem

theorem lookup_mapSet_other :
    ∀ (d : Dict) (k k' : String) (v : PyVal), k' ≠ k →
      dictLookup (d.map (fun p => if p.1 = k then (k, v) else p)) k' =
        dictLookup d k'
  | [], _, _, _, _ => rfl
  | (k₀, v₀) :: rest, k, k', v, hne => by
    rw [List.map_cons]
    by_cases h0 : k₀ = k
    · subst h0
      rw [show (if ((k₀, v₀) : String × PyVal).1 = k₀ then (k₀, v) else (k₀, v₀)) =
          (k₀, v) from if_pos rfl]
      rw [dictLookup_cons, dictLookup_cons, if_neg hne, if_neg hne]
      exact lookup_mapSet_other rest k₀ k' v hne
    · rw [show (if ((k₀, v₀) : String × PyVal).1 = k then (k, v) else (k₀, v₀)) =
          (k₀, v₀) from if_neg h0]
      rw [dictLookup_cons, dictLookup_cons]
      by_cases h1 : k' = k₀
      · rw [if_pos h1, if_pos h1]
      · rw [if_neg h1, if_neg h1]
        exact lookup_mapSet_other rest k k' v hne

theorem lookup_append_single_same (d : Dict) (k : String) (v : PyVal)
    (h : k ∉ d.map Prod.fst) : dictLookup (d ++ [(k, v)]) k = some v := by
  induction d with
  | nil => simp [dictLookup]
  | cons p rest ih =>
    obtain ⟨k₀, v₀⟩ := p
    have h1 : k ≠ k₀ := fun e => h (by simp [e])
    have h2 : k ∉ rest.map Prod.fst := fun e => h (by simp [e])
    simp [dictLookup, h1, ih h2]

theorem lookup_append_single_other (d : Dict) (k k' : String) (v : PyVal)
    (hne : k' ≠ k) : dictLookup (d ++ [(k, v)]) k' = dictLookup d k' := by
  induction d with
  | nil => simp [dictLookup, hne]
  | cons p rest ih =>
    obtain ⟨k₀, v₀⟩ := p
    by_cases h0 : k' = k₀
    · simp [dictLookup, h0]
    · simp [dictLookup, h0, ih]

theorem dictSet_lookup_same (d : Dict) (k : String) (v : PyVal) :
    dictLookup (dictSet d k v) k = some v := by
  unfold dictSet
  by_cases hmem : k ∈ d.map Prod.fst
  · rw [if_pos hmem]
    exact lookup_mapSet_same d k v hmem
  · rw [if_neg hmem]
    exact lookup_append_single_same d k v hmem

theorem dictSet_lookup_other (d : Dict) (k k' : String) (v : PyVal)
    (hne : k' ≠ k) : dictLookup (dictSet d k v) k' = dictLookup d k' := by
  unfold dictSet
  split
  · exact lookup_mapSet_other d k k' v hne
  · exact lookup_append_single_other d k k' v hne

/-- C9: each output record of `rank_candidates` is a copy of its input
candidate: every key other than the three added ones keeps its original
value, the three keys `match_score`, `missing_skills`, `matched_skills` are
set to the computed score and skill lists, and the output records are
exactly the augmented copies of the input candidates (the input mappings
themselves are untouched — the embedding is pure, as is the source's
`{**candidate, ...}` construction). -/
theorem rank_candidates_record_fields (c : Dict) (job : String) (m : ℝ)
    (k : String)
    (hk : k ≠ "match_score" ∧ k ≠ "missing_skills" ∧ k ≠ "matched_skills") :
    dictLookup (rankedCandidate job m c) k = dictLookup c k ∧
      dictLookup (rankedCandidate job m c) "match_score" =
        some (PyVal.real (scoreOf (resumeTextOf c) job m)) ∧
      dictLookup (rankedCandidate job m c) "missing_skills" =
        some (PyVal.strList (missingSkills (resumeTextOf c) job)) ∧
      dictLookup (rankedCandidate job m c) "matched_skills" =
        some (PyVal.strList (matchedSkills (resumeTextOf c) job)) ∧
      ∀ cs out, rank_candidates cs job m = Except.ok out →
        out.Perm (cs.map (rankedCandidate job m)) := by
  obtain ⟨hk1, hk2, hk3⟩ := hk
  refine ⟨?_, ?_, ?_, ?_, ?_⟩
  · unfold rankedCandidate
    rw [dictSet_lookup_other _ _ _ _ hk3, dictSet_lookup_other _ _ _ _ hk2,
      dictSet_lookup_other _ _ _ _ hk1]
  · unfold rankedCandidate
    rw [dictSet_lookup_other _ _ _ _ (by decide),
      dictSet_lookup_other _ _ _ _ (by decide), dictSet_lookup_same]
  · unfold rankedCandidate
    rw [dictSet_lookup_other _ _ _ _ (by decide), dictSet_lookup_same]
  · unfold rankedCandidate
    rw [dictSet_lookup_same]
  · intro cs out h
    unfold rank_candidates at h
    split at h
    · rw [Except.ok.injEq] at h
      subst h
      exact List.mergeSort_perm _ _
    · cases h

/-- Witness for C9 at concrete input: the record built for the candidate
`[("name", "dana")]` keeps the `name` field and carries the three computed
fields. -/
theorem rank_candidates_record_fields_witness :
    dictLookup (rankedCandidate "python" 100 [("name", PyVal.str "dana")]) "name" =
        dictLookup [("name", PyVal.str "dana")] "name" ∧
      dictLookup (rankedCandidate "python" 100 [("name", PyVal.str "dana")])
          "match_score" =
        some (PyVal.real (scoreOf
          (resumeTextOf [("name", PyVal.str "dana")]) "python" 100)) ∧
      dictLookup (rankedCandidate "python" 100 [("name", PyVal.str "dana")])
          "missing_skills" =
        some (PyVal.strList (missingSkills
          (resumeTextOf [("name", PyVal.str "dana")]) "python")) ∧
      dictLookup (rankedCandidate "python" 100 [("name", PyVal.str "dana")])
          "matched_skills" =
        some (PyVal.strList (matchedSkills
          (resumeTextOf [("name", PyVal.str "dana")]) "python")) ∧
      ∀ cs out, rank_candidates cs "python" 100 = Except.ok out →
        out.Perm (cs.map (rankedCandidate "python" 100)) :=
  rank_candidates_record_fields [("name", PyVal.str "dana")] "python" 100
    "name" (by decide)

/-- C8: a candidate mapping without a `resume_text` key is scored with the
empty string as resume text, and `rank_candidates` does not raise on account
of the missing key: whenever the empty-resume corpus against the job
description has a vocabulary at all, ranking that candidate succeeds. -/
theorem rank_candidates_missing_resume_text (c : Dict) (job : String) (m : ℝ)
    (h : dictLookup c "resume_text" = none) :
    resumeTextOf c = "" ∧
      (vocabOf "" job ≠ [] →
        ∃ out, rank_candidates [c] job m = Except.ok out) := by
  have hr : resumeTextOf c = "" := by
    unfold resumeTextOf
    rw [h]
  refine ⟨hr, fun hv => ?_⟩
  refine ⟨sortByScoreDesc (preRanked [c] job m), ?_⟩
  rw [rank_candidates, if_pos ?_]
  simp only [List.all_cons, List.all_nil, Bool.and_true, Bool.not_eq_true',
    hr]
  rw [← Bool.not_eq_true, List.isEmpty_iff]
  exact hv

/-- Witness for C8 at concrete input: the candidate `[("name", "alice")]`
has no `resume_text` key, is treated as the empty resume, and ranking it
against `"python developer"` succeeds. -/
theorem rank_candidates_missing_resume_text_witness :
    resumeTextOf [("name", PyVal.str "alice")] = "" ∧
      ∃ out, rank_candidates [[("name", PyVal.str "alice")]]
        "python developer" 100 = Except.ok out :=
  ⟨(rank_candidates_missing_resume_text [("name", PyVal.str "alice")]
      "python developer" 100 rfl).1,
   (rank_candidates_missing_resume_text [("name", PyVal.str "alice")]
      "python developer" 100 rfl).2 (by decide)⟩

end ATS
